import Mathlib

/-!
Verification development for the `google-chat-standup` PR-reminder pipeline
(`src/github-prs.ts`).  The three components — the review-state reducer, the
PR fetcher and the reminder composer — are shallowly embedded as pure Lean
functions:

* JavaScript `Map<string, string>` is embedded as an insertion-ordered
  association list `List (String × String)` (`Map.set` keeps the position of
  an existing key and appends a new one).
* Timestamps (`Date.getTime()` values, `createdAt` after `new Date(…)`)
  are embedded as `Int` milliseconds since the epoch.
* The network boundary of the fetcher is a parameter
  `net : String → RepoResult`: per repository spec it either fails before
  any per-repository effect (non-ok response, GraphQL errors, network
  error, malformed top-level payload) or yields the decoded list of nodes;
  a node may itself be poisoned so that its traversal inside the PR loop
  throws, which the per-repository handler catches after the draft count
  and the earlier PRs of that repository have been recorded.
* `Date.prototype.toLocaleDateString("en-US", {month: "short", day:
  "numeric"})` is embedded as the Gregorian short date in UTC.
-/

set_option autoImplicit false

namespace StandupPR

/-- Tests whether `p` starts the character list. -/
def charsStartWith : List Char → List Char → Bool
  | _, [] => true
  | [], _ :: _ => false
  | c :: cs, p :: ps => c == p && charsStartWith cs ps

/-- Tests whether `pat` occurs somewhere in the character list. -/
def charsContain (pat : List Char) : List Char → Bool
  | [] => charsStartWith [] pat
  | c :: cs => charsStartWith (c :: cs) pat || charsContain pat cs

/-- Embeds `s.includes(pat)`: some position of `s` starts an occurrence of `pat`. -/
def strContains (s pat : String) : Bool :=
  charsContain pat.data s.data

/-- A review node from the GraphQL payload: `author?.login` and `state`. -/
structure Review where
  author : Option String
  state : String
  deriving DecidableEq, Repr

/-- Embeds `reviewerStatuses.has(reviewer)` on the insertion-ordered map. -/
def mapHas (m : List (String × String)) (k : String) : Bool :=
  m.any (fun p => p.1 == k)

/-- Embeds `reviewerStatuses.get(reviewer)` on the insertion-ordered map. -/
def mapGet (m : List (String × String)) (k : String) : Option String :=
  (m.find? (fun p => p.1 == k)).map (fun p => p.2)

/-- Embeds `reviewerStatuses.set(reviewer, status)`: JavaScript `Map.set`
updates an existing key in place (keeping its position) and appends a fresh
key. -/
def mapSet (m : List (String × String)) (k v : String) : List (String × String) :=
  if mapHas m k then m.map (fun p => if p.1 == k then (k, v) else p)
  else m ++ [(k, v)]

/-- One iteration of the review loop of `fetchPRsWaitingForReview`
(src/github-prs.ts lines 121–144): skip events with no author login, events
by the PR author and events by `[bot]` accounts; `APPROVED` and
`CHANGES_REQUESTED` overwrite unconditionally; `COMMENTED` only lands on an
absent or `pending` entry; other states change nothing. -/
def processReview (prAuthor : Option String) (m : List (String × String))
    (review : Review) : List (String × String) :=
  match review.author with
  | none => m
  | some reviewer =>
    if reviewer = "" then m
    else if prAuthor = some reviewer ∨ strContains reviewer "[bot]" then m
    else if review.state = "APPROVED" then mapSet m reviewer "approved"
    else if review.state = "CHANGES_REQUESTED" then mapSet m reviewer "changes_requested"
    else if review.state = "COMMENTED" then
      if mapHas m reviewer = false ∨ mapGet m reviewer = some "pending" then
        mapSet m reviewer "commented"
      else m
    else m

/-- Embeds `pr.reviewRequests?.nodes?.map(rr => rr.requestedReviewer?.login)
.filter(login => login)`: drop missing and empty logins. -/
def requestedLogins (reqs : List (Option String)) : List String :=
  (reqs.filterMap id).filter (fun l => l ≠ "")

/-- Requested reviewers are seeded with status `"pending"`
(src/github-prs.ts lines 115–117). -/
def initReviewerStatuses (requested : List String) : List (String × String) :=
  requested.foldl (fun m r => mapSet m r "pending") []

/-- The review-state reducer: seed the requested reviewers at `"pending"`,
then fold the review events in order (src/github-prs.ts lines 107–144). -/
def resolveReviewers (prAuthor : Option String) (requested : List String)
    (reviews : List Review) : List (String × String) :=
  reviews.foldl (processReview prAuthor) (initReviewerStatuses requested)

/-- A review event that the reducer loop does not skip: it has a non-empty
author login that is neither the PR author nor a `[bot]` account. -/
def qualifies (prAuthor : Option String) (rv : Review) : Bool :=
  match rv.author with
  | none => false
  | some a => !(a == "") && !(decide (prAuthor = some a)) && !(strContains a "[bot]")

/-- One `(login, status)` entry of a `GitHubPR.reviewers` array. -/
structure Reviewer where
  login : String
  status : String
  deriving DecidableEq, Repr

/-- The `GitHubPR` record assembled by the fetcher (src/github-prs.ts lines
2–10); `createdAt` is embedded as epoch milliseconds. -/
structure GitHubPR where
  title : String
  number : Nat
  author : String
  url : String
  reviewers : List Reviewer
  createdAt : Int
  repository : String
  deriving DecidableEq, Repr

/-- A raw pull-request node of the GraphQL response, after decoding:
`reviewRequests` holds the `requestedReviewer?.login` fields and `reviews`
the review nodes; `createdAt` is embedded as epoch milliseconds. -/
structure RawPR where
  number : Nat
  title : String
  url : String
  createdAt : Int
  isDraft : Bool
  author : Option String
  reviewRequests : List (Option String)
  reviews : List Review
  deriving DecidableEq, Repr

/-- A decoded entry of the `pullRequests.nodes` array: either a fully
well-formed node, or a poisoned one whose `isDraft` field is still readable
(so the draft-count filter of line 100 succeeds) but whose traversal inside
the PR loop throws — for example a null entry of `reviews.nodes` hit at
line 122.  A node whose `isDraft` read itself throws already breaks the
draft-count filter, before any per-repository effect, and is covered by
`RepoResult.fail`. -/
inductive RawNode where
  | node (pr : RawPR)
  | poisoned (isDraft : Bool)
  deriving DecidableEq, Repr

/-- The `isDraft` field read by the draft-count filter (line 100). -/
def RawNode.isDraft : RawNode → Bool
  | .node pr => pr.isDraft
  | .poisoned d => d

/-- Outcome of querying one repository: the decoded `pullRequests.nodes`
array, or a failure that precedes every per-repository effect — non-ok
response (line 85), GraphQL errors (line 92), a network error, or a
top-level payload so malformed that the draft-count filter itself throws.
Failures inside the PR loop are poisoned nodes of an `ok` payload. -/
inductive RepoResult where
  | ok (nodes : List RawNode)
  | fail
  deriving DecidableEq, Repr

/-- Embeds `draftCounts[repo] = prs.filter(pr => pr.isDraft).length`
(src/github-prs.ts lines 100–101); it runs before the PR loop, so it
succeeds even when a later node's traversal throws. -/
def countDrafts (nodes : List RawNode) : Nat :=
  (nodes.filter (fun n => n.isDraft)).length

/-- Fallback of JavaScript `x || d` on an optional login: a missing or
empty string falls back to the default. -/
def loginOrDefault (s : Option String) (d : String) : String :=
  match s with
  | none => d
  | some a => if a = "" then d else a

/-- The non-draft PR loop of `fetchPRsWaitingForReview` for one repository
(src/github-prs.ts lines 103–164): skip drafts, resolve the reviewer map,
and keep the PR only when the map is non-empty. -/
def processRepoPRs (repo : String) : List RawPR → List GitHubPR
  | [] => []
  | pr :: rest =>
    if pr.isDraft then processRepoPRs repo rest
    else
      let reviewersWithStatus :=
        resolveReviewers pr.author (requestedLogins pr.reviewRequests) pr.reviews
      if reviewersWithStatus.length > 0 then
        { title := pr.title
          number := pr.number
          author := loginOrDefault pr.author "unknown"
          url := pr.url
          reviewers := reviewersWithStatus.map (fun p => { login := p.1, status := p.2 })
          createdAt := pr.createdAt
          repository := repo } :: processRepoPRs repo rest
      else processRepoPRs repo rest

/-- The same PR loop (src/github-prs.ts lines 103–164) on a payload that may
contain poisoned nodes: a well-formed node is processed exactly as in
`processRepoPRs`, a poisoned draft node is dismissed by the draft check of
line 105 before anything can throw, and a poisoned non-draft node throws —
the caught exception (line 165) keeps the PRs already accumulated and
abandons the rest of the repository's nodes. -/
def processRepoNodes (repo : String) : List RawNode → List GitHubPR
  | [] => []
  | RawNode.node pr :: rest =>
    if pr.isDraft then processRepoNodes repo rest
    else
      let reviewersWithStatus :=
        resolveReviewers pr.author (requestedLogins pr.reviewRequests) pr.reviews
      if reviewersWithStatus.length > 0 then
        { title := pr.title
          number := pr.number
          author := loginOrDefault pr.author "unknown"
          url := pr.url
          reviewers := reviewersWithStatus.map (fun p => { login := p.1, status := p.2 })
          createdAt := pr.createdAt
          repository := repo } :: processRepoNodes repo rest
      else processRepoNodes repo rest
  | RawNode.poisoned true :: rest => processRepoNodes repo rest
  | RawNode.poisoned false :: _ => []

/-- The well-formed PRs the loop actually reaches: every node before the
first throwing one, with poisoned draft nodes dismissed by the draft
check. -/
def reachedRawPRs : List RawNode → List RawPR
  | [] => []
  | RawNode.node pr :: rest => pr :: reachedRawPRs rest
  | RawNode.poisoned true :: rest => reachedRawPRs rest
  | RawNode.poisoned false :: _ => []

/-- Splits a character list at every occurrence of the separator, keeping
empty fragments, as JavaScript `String.split` does. -/
def splitChars (sep : Char) : List Char → List (List Char)
  | [] => [[]]
  | c :: cs =>
    if c == sep then [] :: splitChars sep cs
    else
      match splitChars sep cs with
      | [] => [[c]]
      | w :: ws => (c :: w) :: ws

/-- Embeds JavaScript `String.split` with a one-character separator. -/
def strSplit (s : String) (sep : Char) : List String :=
  (splitChars sep s.data).map String.mk

/-- Embeds `repo.split("/")` destructured as `[owner, repoName]` with the
`!owner || !repoName` guard (src/github-prs.ts lines 33–37): the first two
fragments must both be non-empty (extra fragments are ignored by the
destructuring). -/
def parseRepoSpec (repo : String) : Option (String × String) :=
  match strSplit repo '/' with
  | [] => none
  | [_] => none
  | o :: n :: _ => if o = "" ∨ n = "" then none else some (o, n)

/-- Embeds `githubRepos.split(",").map(repo => repo.trim()).filter(repo =>
repo)` (src/github-prs.ts line 27). -/
def parseRepoCsv (s : String) : List String :=
  ((strSplit s ',').map (fun r => r.trim)).filter (fun r => r ≠ "")

/-- The per-repository loop of `fetchPRsWaitingForReview`
(src/github-prs.ts lines 31–168): invalid specs are skipped, a query that
fails before any effect contributes nothing, and an answered query
contributes its draft count and the PRs its loop reaches (all of them, or
only those before a mid-loop throw), in input order. -/
def fetchFromRepos (net : String → RepoResult) :
    List String → List GitHubPR × List (String × Nat)
  | [] => ([], [])
  | repo :: rest =>
    let r := fetchFromRepos net rest
    match parseRepoSpec repo with
    | none => r
    | some _ =>
      match net repo with
      | .fail => r
      | .ok nodes => (processRepoNodes repo nodes ++ r.1, (repo, countDrafts nodes) :: r.2)

/-- Embeds `fetchPRsWaitingForReview(githubToken, githubRepos)`
(src/github-prs.ts lines 13–171): a missing or empty token, or an empty
repository list, short-circuits to empty results; otherwise each CSV entry
is processed in order.  `net` stands for the GraphQL round trip. -/
def fetchPRsWaitingForReview (net : String → RepoResult)
    (githubToken : Option String) (githubRepos : String) :
    List GitHubPR × List (String × Nat) :=
  if githubToken = none ∨ githubToken = some "" then ([], [])
  else if githubRepos = "" then ([], [])
  else fetchFromRepos net (parseRepoCsv githubRepos)

/-- Proleptic Gregorian civil date `(year, month, day)` from days since the
epoch (Hinnant's algorithm); used to embed the short date rendering. -/
def civilFromDays (z0 : Int) : Int × Int × Int :=
  let z := z0 + 719468
  let era := Int.fdiv z 146097
  let doe := z - era * 146097
  let yoe := (doe - doe / 1460 + doe / 36524 - doe / 146096) / 365
  let y := yoe + era * 400
  let doy := doe - (365 * yoe + yoe / 4 - yoe / 100)
  let mp := (5 * doy + 2) / 153
  let d := doy - (153 * mp + 2) / 5 + 1
  let m := if mp < 10 then mp + 3 else mp - 9
  (if m ≤ 2 then y + 1 else y, m, d)

/-- Short month names of the `"en-US"` locale. -/
def monthShort (m : Int) : String :=
  if m = 1 then "Jan" else if m = 2 then "Feb" else if m = 3 then "Mar"
  else if m = 4 then "Apr" else if m = 5 then "May" else if m = 6 then "Jun"
  else if m = 7 then "Jul" else if m = 8 then "Aug" else if m = 9 then "Sep"
  else if m = 10 then "Oct" else if m = 11 then "Nov" else "Dec"

/-- Embeds `createdDate.toLocaleDateString` with short month and numeric day
(src/github-prs.ts lines 240–243), in UTC. -/
def formatShortDate (ms : Int) : String :=
  let c := civilFromDays (Int.fdiv ms 86400000)
  monthShort c.2.1 ++ " " ++ toString c.2.2

/-- The relative-age phrase (src/github-prs.ts lines 246–258):
`Math.floor` is floor division on the millisecond difference. -/
def relativeTime (diffMs : Int) : String :=
  let diffHours := Int.fdiv diffMs 3600000
  let diffDays := Int.fdiv diffHours 24
  if diffDays > 0 then
    toString diffDays ++ " day" ++ (if diffDays > 1 then "s" else "") ++ " ago"
  else if diffHours > 0 then
    toString diffHours ++ " hour" ++ (if diffHours > 1 then "s" else "") ++ " ago"
  else "just now"

/-- The status-to-glyph switch of the reviewer rendering
(src/github-prs.ts lines 264–282); the `default` arm yields `"⏳"`. -/
def statusEmoji (status : String) : String :=
  if status = "approved" then "✅"
  else if status = "changes_requested" then "🔄"
  else if status = "commented" then "💬"
  else "⏳"

/-- Embeds `const maxAgeMs = maxAgeDays * 24 * 60 * 60 * 1000`
(src/github-prs.ts line 188). -/
def maxAgeMsOf (maxAgeDays : Nat) : Int :=
  (maxAgeDays : Int) * 24 * 60 * 60 * 1000

/-- The age filter of the composer (src/github-prs.ts lines 210–213):
`prAge <= maxAgeMs` with `prAge = now - createdAt`. -/
def passesAge (now maxAgeMs : Int) (pr : GitHubPR) : Bool :=
  decide (now - pr.createdAt ≤ maxAgeMs)

/-- The complementary `oldPRs` filter (src/github-prs.ts lines 215–218):
`prAge > maxAgeMs`. -/
def isTooOld (now maxAgeMs : Int) (pr : GitHubPR) : Bool :=
  decide (maxAgeMs < now - pr.createdAt)

/-- Some reviewer still needs to act (src/github-prs.ts lines 224–226). -/
def hasPendingReview (pr : GitHubPR) : Bool :=
  pr.reviewers.any (fun r =>
    r.status == "pending" || r.status == "commented" || r.status == "changes_requested")

/-- Every reviewer (of at least one) has approved
(src/github-prs.ts lines 228–230). -/
def isFullyApproved (pr : GitHubPR) : Bool :=
  decide (pr.reviewers.length > 0) && pr.reviewers.all (fun r => r.status == "approved")

/-- The visible PRs of one repository group: the age filter followed by the
pending-review filter (src/github-prs.ts lines 210–226). -/
def visiblePRs (now maxAgeMs : Int) (repoPRs : List GitHubPR) : List GitHubPR :=
  (repoPRs.filter (passesAge now maxAgeMs)).filter hasPendingReview

/-- The per-PR block of the message (src/github-prs.ts lines 238–286). -/
def renderPR (now : Int) (pr : GitHubPR) : String :=
  "#" ++ toString pr.number ++ " - <" ++ pr.url ++ "|" ++ pr.title ++ ">\n"
    ++ "Author: " ++ pr.author ++ "\n"
    ++ "Reviewers: "
    ++ String.intercalate ", "
        (pr.reviewers.map (fun r => r.login ++ " " ++ statusEmoji r.status))
    ++ "\n"
    ++ "Created: " ++ formatShortDate pr.createdAt
    ++ " (" ++ relativeTime (now - pr.createdAt) ++ ")\n\n"

/-- One repository section: header plus visible PRs, or nothing when no PR
of the group is visible (src/github-prs.ts lines 234–287). -/
def renderRepoSection (now maxAgeMs : Int) (repository : String)
    (repoPRs : List GitHubPR) : String :=
  let visible := visiblePRs now maxAgeMs repoPRs
  if visible.length > 0 then
    "*" ++ repository ++ "*\n\n" ++ String.join (visible.map (renderPR now))
  else ""

/-- The `hiddenByRepo` entry of one repository
(src/github-prs.ts lines 200–232). -/
structure HiddenCounts where
  fullyReviewed : Nat
  tooOld : Nat
  draft : Nat
  deriving DecidableEq, Repr

/-- Embeds `draftCounts[repository] || 0` on the draft-count record. -/
def lookupDraft (dc : List (String × Nat)) (repository : String) : Nat :=
  ((dc.find? (fun p => p.1 == repository)).map (fun p => p.2)).getD 0

/-- The hidden counts accumulated for one repository group
(src/github-prs.ts lines 204–232). -/
def repoHiddenCounts (now maxAgeMs : Int) (dc : List (String × Nat))
    (repository : String) (repoPRs : List GitHubPR) : HiddenCounts :=
  { fullyReviewed := ((repoPRs.filter (passesAge now maxAgeMs)).filter isFullyApproved).length
    tooOld := (repoPRs.filter (isTooOld now maxAgeMs)).length
    draft := lookupDraft dc repository }

/-- Whether a repository's hidden counts make it appear in the summary
(src/github-prs.ts lines 291–293 and 300). -/
def hasAnyHidden (c : HiddenCounts) : Bool :=
  decide (0 < c.fullyReviewed) || decide (0 < c.tooOld) || decide (0 < c.draft)

/-- One repository's lines of the "Hidden PRs" summary
(src/github-prs.ts lines 299–312). -/
def renderHiddenRepo (maxAgeDays : Nat) (repository : String)
    (c : HiddenCounts) : String :=
  if hasAnyHidden c then
    repository ++ ":\n"
      ++ (if 0 < c.fullyReviewed then
            "  - " ++ toString c.fullyReviewed ++ " PR"
              ++ (if 1 < c.fullyReviewed then "s" else "") ++ " fully reviewed\n"
          else "")
      ++ (if 0 < c.tooOld then
            "  - " ++ toString c.tooOld ++ " PR"
              ++ (if 1 < c.tooOld then "s" else "")
              ++ " older than " ++ toString maxAgeDays ++ " days\n"
          else "")
      ++ (if 0 < c.draft then
            "  - " ++ toString c.draft ++ " draft PR"
              ++ (if 1 < c.draft then "s" else "") ++ "\n"
          else "")
  else ""

/-- Embeds `prs.reduce(...)` into a `Record<string, GitHubPR[]>`
(src/github-prs.ts lines 191–197): string keys keep insertion order, each
PR is pushed onto its repository's array. -/
def groupByRepo (prs : List GitHubPR) : List (String × List GitHubPR) :=
  prs.foldl (fun acc pr =>
    if acc.any (fun g => g.1 == pr.repository) then
      acc.map (fun g => if g.1 == pr.repository then (g.1, g.2 ++ [pr]) else g)
    else acc ++ [(pr.repository, [pr])]) []

/-- Embeds `generatePRReminderMessage(prs, maxAgeDays, draftCounts)`
(src/github-prs.ts lines 174–318) with the wall clock `now` (epoch
milliseconds) made an explicit parameter. -/
def generatePRReminderMessage (now : Int) (prs : List GitHubPR)
    (maxAgeDays : Nat := 120) (draftCounts : List (String × Nat) := []) : String :=
  if prs.length = 0 then ""
  else
    let maxAgeMs : Int := maxAgeMsOf maxAgeDays
    let groups := groupByRepo prs
    let hidden := groups.map (fun g => (g.1, repoHiddenCounts now maxAgeMs draftCounts g.1 g.2))
    let hasHiddenPRs := hidden.any (fun h => hasAnyHidden h.2)
    "🔄 *Pull Requests Reminder* 🔄\n\n"
      ++ "The following PRs need your attention:\n\n"
      ++ String.join (groups.map (fun g => renderRepoSection now maxAgeMs g.1 g.2))
      ++ (if hasHiddenPRs then
            "---\n" ++ "Hidden PRs:\n\n"
              ++ String.join (hidden.map (fun h => renderHiddenRepo maxAgeDays h.1 h.2))
              ++ "\n"
          else "")
      ++ "Please review these pull requests at your earliest convenience. Thank you!"

end StandupPR

namespace StandupPR

/-- The four values of the `ReviewStatus` enumeration. -/
def validStatus (s : String) : Prop :=
  s = "pending" ∨ s = "approved" ∨ s = "changes_requested" ∨ s = "commented"

theorem hasPendingReview_eq_false_of_all_approved {pr : GitHubPR}
    (h : ∀ r ∈ pr.reviewers, r.status = "approved") : hasPendingReview pr = false := by
  simp only [hasPendingReview, List.any_eq_false]
  intro r hr
  simp [h r hr]

theorem isFullyApproved_eq_true_of_all_approved {pr : GitHubPR}
    (hne : pr.reviewers ≠ []) (h : ∀ r ∈ pr.reviewers, r.status = "approved") :
    isFullyApproved pr = true := by
  simp only [isFullyApproved, Bool.and_eq_true, decide_eq_true_eq, List.all_eq_true]
  refine ⟨List.length_pos.mpr hne, ?_⟩
  intro r hr
  simp [h r hr]

/-- Claim C7: composing with an empty PR sequence yields the empty string for
every `maxAgeDays` and every `draftCounts` mapping. -/
theorem C7_empty_input_empty_message (now : Int) (maxAgeDays : Nat)
    (draftCounts : List (String × Nat)) :
    generatePRReminderMessage now [] maxAgeDays draftCounts = "" := rfl

/-- Claim C8: a missing or empty token, or an empty repository-list string,
makes the fetcher return empty results for every network behavior `net`
(so no network call can influence the result). -/
theorem C8_missing_config_empty_results (net : String → RepoResult)
    (githubRepos : String) (tok : Option String) :
    fetchPRsWaitingForReview net none githubRepos = ([], [])
    ∧ fetchPRsWaitingForReview net (some "") githubRepos = ([], [])
    ∧ fetchPRsWaitingForReview net tok "" = ([], []) := by
  refine ⟨rfl, rfl, ?_⟩
  unfold fetchPRsWaitingForReview
  split
  · rfl
  · rfl

/-- Claim C1 as stated is false: on a single fully-approved PR the composer
does not return the empty string (the early return tests only the input
length), it returns the preamble plus a "Hidden PRs" summary. -/
theorem C1_counterexample_nonempty :
    generatePRReminderMessage 172800000
      [{ title := "Fix bug", number := 1, author := "dave", url := "http://x",
         reviewers := [{ login := "carol", status := "approved" }],
         createdAt := 0, repository := "a/b" }] 120 [] ≠ "" := by
  decide

/-- Claim C1 amended: on a single age-eligible, fully-approved PR the
composer returns the non-empty preamble-plus-"Hidden PRs" message with no
repository section, reporting the PR as fully reviewed. -/
theorem C1_amended_all_approved_message (now : Int) (maxAgeDays : Nat) (pr : GitHubPR)
    (hne : pr.reviewers ≠ []) (happ : ∀ r ∈ pr.reviewers, r.status = "approved")
    (hage : now - pr.createdAt ≤ maxAgeMsOf maxAgeDays) :
    generatePRReminderMessage now [pr] maxAgeDays [] =
      "🔄 *Pull Requests Reminder* 🔄\n\nThe following PRs need your attention:\n\n---\nHidden PRs:\n\n"
        ++ pr.repository
        ++ ":\n  - 1 PR fully reviewed\n\nPlease review these pull requests at your earliest convenience. Thank you!" := by
  have hpend := hasPendingReview_eq_false_of_all_approved happ
  have hfull := isFullyApproved_eq_true_of_all_approved hne happ
  have hage' : passesAge now (maxAgeMsOf maxAgeDays) pr = true := by
    simpa [passesAge] using hage
  have hold : isTooOld now (maxAgeMsOf maxAgeDays) pr = false := by
    simp only [isTooOld, decide_eq_false_iff_not, not_lt]
    exact hage
  have ht : toString (1 : Nat) = "1" := rfl
  simp [generatePRReminderMessage, groupByRepo, renderRepoSection, visiblePRs,
        repoHiddenCounts, hasAnyHidden, renderHiddenRepo, lookupDraft, String.join,
        hpend, hfull, hage', hold, ht, String.append_assoc]
  rw [← String.append_assoc]
  congr 1

theorem mapGet_mapSet_self (m : List (String × String)) (k v : String) :
    mapGet (mapSet m k v) k = some v := by
  induction m with
  | nil => simp [mapSet, mapHas, mapGet]
  | cons p t ih =>
    rw [mapSet] at ih ⊢
    by_cases hpk : p.1 = k
    · have h1 : mapHas (p :: t) k = true := by simp [mapHas, hpk]
      rw [if_pos h1]
      simp [mapGet, List.map_cons, if_pos hpk]
    · have hh : mapHas (p :: t) k = mapHas t k := by simp [mapHas, List.any_cons, hpk]
      by_cases hmt : mapHas t k
      · rw [hh, if_pos hmt]
        rw [if_pos hmt] at ih
        simp only [List.map_cons, if_neg hpk, mapGet]
        rw [List.find?_cons_of_neg _ (by simp [hpk])]
        simpa [mapGet] using ih
      · rw [hh, if_neg (by simp [hmt])]
        rw [if_neg (by simp [hmt])] at ih
        simp only [List.cons_append, mapGet]
        rw [List.find?_cons_of_neg _ (by simp [hpk])]
        simpa [mapGet] using ih

theorem mapGet_map_update_ne (t : List (String × String)) (k v a : String) (hka : k ≠ a) :
    mapGet (t.map (fun p => if p.1 == k then (k, v) else p)) a = mapGet t a := by
  induction t with
  | nil => rfl
  | cons p t ih =>
    by_cases hpk : p.1 = k
    · simp only [List.map_cons, if_pos (by simp [hpk] : (p.1 == k) = true), mapGet]
      rw [List.find?_cons_of_neg _ (by simp [hka])]
      rw [List.find?_cons_of_neg _ (by simp [hpk, hka])]
      simpa [mapGet] using ih
    · simp only [List.map_cons, if_neg (by simp [hpk] : ¬(p.1 == k) = true), mapGet]
      by_cases hpa : p.1 = a
      · rw [List.find?_cons_of_pos _ (by simp [hpa]), List.find?_cons_of_pos _ (by simp [hpa])]
      · rw [List.find?_cons_of_neg _ (by simp [hpa]), List.find?_cons_of_neg _ (by simp [hpa])]
        simpa [mapGet] using ih

theorem mapGet_mapSet_ne (m : List (String × String)) (k v a : String) (hka : k ≠ a) :
    mapGet (mapSet m k v) a = mapGet m a := by
  rw [mapSet]
  by_cases h : mapHas m k
  · rw [if_pos h]
    exact mapGet_map_update_ne m k v a hka
  · rw [if_neg (by simp [h])]
    simp [mapGet, List.find?_append, hka]

theorem mapGet_eq_none_of_mapHas_eq_false {m : List (String × String)} {k : String}
    (h : mapHas m k = false) : mapGet m k = none := by
  simp only [mapHas, List.any_eq_false] at h
  have hf : List.find? (fun p => p.1 == k) m = none := List.find?_eq_none.mpr h
  simp [mapGet, hf]

theorem mapGet_foldl_pending_none (requested : List String) (a : String) :
    ∀ m, a ∉ requested → mapGet m a = none →
      mapGet (requested.foldl (fun m r => mapSet m r "pending") m) a = none := by
  induction requested with
  | nil => intro m _ hm; exact hm
  | cons q t ih =>
    intro m ha hm
    simp only [List.foldl_cons]
    have hqa : q ≠ a := by rintro rfl; exact ha (List.mem_cons_self _ _)
    exact ih _ (fun hz => ha (List.mem_cons_of_mem _ hz))
      ((mapGet_mapSet_ne m q "pending" a hqa).trans hm)

theorem mapGet_processReview_none (prAuthor : Option String) (a : String)
    (h : prAuthor = some a ∨ strContains a "[bot]" = true) (rv : Review)
    (m : List (String × String)) (hm : mapGet m a = none) :
    mapGet (processReview prAuthor m rv) a = none := by
  rcases rv with ⟨ob, st⟩
  cases ob with
  | none => exact hm
  | some b =>
    simp only [processReview]
    by_cases hb : b = ""
    · rw [if_pos hb]; exact hm
    · rw [if_neg hb]
      by_cases hskip : prAuthor = some b ∨ strContains b "[bot]" = true
      · rw [if_pos hskip]; exact hm
      · rw [if_neg hskip]
        have hba : b ≠ a := by rintro rfl; exact hskip h
        by_cases h1 : st = "APPROVED"
        · rw [if_pos h1, mapGet_mapSet_ne m b _ a hba]; exact hm
        · rw [if_neg h1]
          by_cases h2 : st = "CHANGES_REQUESTED"
          · rw [if_pos h2, mapGet_mapSet_ne m b _ a hba]; exact hm
          · rw [if_neg h2]
            by_cases h3 : st = "COMMENTED"
            · rw [if_pos h3]
              by_cases h4 : mapHas m b = false ∨ mapGet m b = some "pending"
              · rw [if_pos h4, mapGet_mapSet_ne m b _ a hba]; exact hm
              · rw [if_neg h4]; exact hm
            · rw [if_neg h3]; exact hm

theorem mapGet_foldl_processReview_none (prAuthor : Option String) (a : String)
    (h : prAuthor = some a ∨ strContains a "[bot]" = true) (reviews : List Review) :
    ∀ m, mapGet m a = none →
      mapGet (reviews.foldl (processReview prAuthor) m) a = none := by
  induction reviews with
  | nil => intro m hm; exact hm
  | cons rv t ih =>
    intro m hm
    simp only [List.foldl_cons]
    exact ih _ (mapGet_processReview_none prAuthor a h rv m hm)

/-- Claim C2: the per-event reducer update: `APPROVED` and
`CHANGES_REQUESTED` overwrite the author's tracked status unconditionally,
`COMMENTED` lands only on an absent or `pending` status and never changes a
tracked `approved` or `changes_requested`; the event sequences
`[changes_requested, approved]` and `[approved, commented]` for one
reviewer both resolve to `approved`. -/
theorem C2_reducer_event_semantics (prAuthor : Option String)
    (m : List (String × String)) (r : String)
    (hr : r ≠ "") (hna : prAuthor ≠ some r) (hnb : strContains r "[bot]" = false) :
    mapGet (processReview prAuthor m ⟨some r, "APPROVED"⟩) r = some "approved"
    ∧ mapGet (processReview prAuthor m ⟨some r, "CHANGES_REQUESTED"⟩) r = some "changes_requested"
    ∧ (mapHas m r = false ∨ mapGet m r = some "pending" →
        mapGet (processReview prAuthor m ⟨some r, "COMMENTED"⟩) r = some "commented")
    ∧ (mapGet m r = some "approved" → processReview prAuthor m ⟨some r, "COMMENTED"⟩ = m)
    ∧ (mapGet m r = some "changes_requested" → processReview prAuthor m ⟨some r, "COMMENTED"⟩ = m)
    ∧ resolveReviewers prAuthor [] [⟨some r, "CHANGES_REQUESTED"⟩, ⟨some r, "APPROVED"⟩]
        = [(r, "approved")]
    ∧ resolveReviewers prAuthor [] [⟨some r, "APPROVED"⟩, ⟨some r, "COMMENTED"⟩]
        = [(r, "approved")] := by
  refine ⟨?_, ?_, ?_, ?_, ?_, ?_, ?_⟩
  · simp [processReview, hr, hna, hnb, mapGet_mapSet_self]
  · simp [processReview, hr, hna, hnb, mapGet_mapSet_self]
  · intro h
    simp [processReview, hr, hna, hnb, h, mapGet_mapSet_self]
  · intro h
    have hno : ¬(mapHas m r = false ∨ mapGet m r = some "pending") := by
      rintro (hh | hp)
      · rw [mapGet_eq_none_of_mapHas_eq_false hh] at h; exact Option.noConfusion h
      · rw [h] at hp; simp at hp
    simp [processReview, hr, hna, hnb, hno]
  · intro h
    have hno : ¬(mapHas m r = false ∨ mapGet m r = some "pending") := by
      rintro (hh | hp)
      · rw [mapGet_eq_none_of_mapHas_eq_false hh] at h; exact Option.noConfusion h
      · rw [h] at hp; simp at hp
    simp [processReview, hr, hna, hnb, hno]
  · simp [resolveReviewers, initReviewerStatuses, processReview, hr, hna, hnb,
      mapSet, mapHas, mapGet]
  · simp [resolveReviewers, initReviewerStatuses, processReview, hr, hna, hnb,
      mapSet, mapHas, mapGet]

/-- Concrete instance of claim C2: `carol` requests changes then approves;
the resolved status is `approved`. -/
theorem C2_reducer_event_semantics_witness :
    resolveReviewers (some "dave") []
      [⟨some "carol", "CHANGES_REQUESTED"⟩, ⟨some "carol", "APPROVED"⟩]
      = [("carol", "approved")] :=
  (C2_reducer_event_semantics (some "dave") [] "carol"
    (by decide) (by decide) (by decide)).2.2.2.2.2.1

/-- Claim C3: a review event authored by the PR author or by a `[bot]`
account leaves the reviewer mapping exactly as it was, and such an account
never appears in the resolved mapping unless it was independently
introduced as a requested reviewer. -/
theorem C3_author_and_bot_events_ignored (prAuthor : Option String) (a : String)
    (h : prAuthor = some a ∨ strContains a "[bot]" = true) :
    (∀ (m : List (String × String)) (st : String),
        processReview prAuthor m ⟨some a, st⟩ = m)
    ∧ (∀ (requested : List String) (reviews : List Review), a ∉ requested →
        mapGet (resolveReviewers prAuthor requested reviews) a = none) := by
  constructor
  · intro m st
    simp only [processReview]
    by_cases ha : a = ""
    · rw [if_pos ha]
    · rw [if_neg ha, if_pos h]
  · intro requested reviews ha
    simp only [resolveReviewers]
    exact mapGet_foldl_processReview_none prAuthor a h reviews _
      (mapGet_foldl_pending_none requested a [] ha rfl)

/-- Concrete instance of claim C3: an `APPROVED` event by the PR author
`dave` leaves the mapping untouched. -/
theorem C3_author_and_bot_events_ignored_witness :
    processReview (some "dave") [("carol", "pending")] ⟨some "dave", "APPROVED"⟩
      = [("carol", "pending")] :=
  (C3_author_and_bot_events_ignored (some "dave") "dave" (by decide)).1
    [("carol", "pending")] "APPROVED"

/-- Concrete instance of the amended claim C1: one fully-approved PR two
days old yields the preamble plus the "Hidden PRs" summary. -/
theorem C1_amended_all_approved_message_witness :
    generatePRReminderMessage 172800000
      [{ title := "Fix bug", number := 1, author := "dave", url := "http://x",
         reviewers := [{ login := "carol", status := "approved" }],
         createdAt := 0, repository := "a/b" }] 120 [] =
      "🔄 *Pull Requests Reminder* 🔄\n\nThe following PRs need your attention:\n\n---\nHidden PRs:\n\n"
        ++ "a/b"
        ++ ":\n  - 1 PR fully reviewed\n\nPlease review these pull requests at your earliest convenience. Thank you!" :=
  C1_amended_all_approved_message 172800000 120
    { title := "Fix bug", number := 1, author := "dave", url := "http://x",
      reviewers := [{ login := "carol", status := "approved" }],
      createdAt := 0, repository := "a/b" }
    (by decide) (by decide) (by decide)

/-- Claim C5: the age-filter boundary: a PR at most `maxAgeDays` days old
(equality included) passes the age filter and stays eligible for the
visible list; a strictly older PR fails the filter, is excluded from the
visible list and adds exactly one to its repository's `tooOld` bucket. -/
theorem C5_age_filter_boundary (now : Int) (maxAgeDays : Nat) (pr : GitHubPR)
    (l₁ l₂ : List GitHubPR) (dc : List (String × Nat)) (repository : String) :
    (now - pr.createdAt ≤ maxAgeMsOf maxAgeDays →
      passesAge now (maxAgeMsOf maxAgeDays) pr = true
      ∧ pr ∈ (l₁ ++ pr :: l₂).filter (passesAge now (maxAgeMsOf maxAgeDays)))
    ∧ (maxAgeMsOf maxAgeDays < now - pr.createdAt →
      passesAge now (maxAgeMsOf maxAgeDays) pr = false
      ∧ visiblePRs now (maxAgeMsOf maxAgeDays) (l₁ ++ pr :: l₂)
          = visiblePRs now (maxAgeMsOf maxAgeDays) (l₁ ++ l₂)
      ∧ (repoHiddenCounts now (maxAgeMsOf maxAgeDays) dc repository (l₁ ++ pr :: l₂)).tooOld
          = (repoHiddenCounts now (maxAgeMsOf maxAgeDays) dc repository (l₁ ++ l₂)).tooOld + 1) := by
  constructor
  · intro h
    have hp : passesAge now (maxAgeMsOf maxAgeDays) pr = true := by
      simpa [passesAge] using h
    exact ⟨hp, List.mem_filter.mpr ⟨by simp, hp⟩⟩
  · intro h
    have hp : passesAge now (maxAgeMsOf maxAgeDays) pr = false := by
      simp only [passesAge, decide_eq_false_iff_not, not_le]
      exact h
    have hto : isTooOld now (maxAgeMsOf maxAgeDays) pr = true := by
      simpa [isTooOld] using h
    refine ⟨hp, ?_, ?_⟩
    · simp [visiblePRs, List.filter_append, List.filter_cons, hp]
    · simp only [repoHiddenCounts, List.filter_append, List.filter_cons, hto, if_true,
        List.length_append, List.length_cons]
      omega

/-- Concrete instance of claim C5: with `maxAgeDays = 120`, a PR created
exactly 120 days before `now` passes the filter, and one a millisecond
older is excluded and counted as too old. -/
theorem C5_age_filter_boundary_witness :
    (passesAge 10368000000 (maxAgeMsOf 120)
        { title := "t", number := 1, author := "a", url := "u",
          reviewers := [{ login := "carol", status := "pending" }],
          createdAt := 0, repository := "a/b" } = true
      ∧ { title := "t", number := 1, author := "a", url := "u",
          reviewers := [{ login := "carol", status := "pending" }],
          createdAt := 0, repository := "a/b" } ∈
          List.filter (passesAge 10368000000 (maxAgeMsOf 120))
            [{ title := "t", number := 1, author := "a", url := "u",
               reviewers := [{ login := "carol", status := "pending" }],
               createdAt := 0, repository := "a/b" }])
    ∧ (passesAge 10368000000 (maxAgeMsOf 120)
        { title := "t", number := 1, author := "a", url := "u",
          reviewers := [{ login := "carol", status := "pending" }],
          createdAt := -1, repository := "a/b" } = false
      ∧ visiblePRs 10368000000 (maxAgeMsOf 120)
          [{ title := "t", number := 1, author := "a", url := "u",
             reviewers := [{ login := "carol", status := "pending" }],
             createdAt := -1, repository := "a/b" }]
          = visiblePRs 10368000000 (maxAgeMsOf 120) []
      ∧ (repoHiddenCounts 10368000000 (maxAgeMsOf 120) [] "a/b"
          [{ title := "t", number := 1, author := "a", url := "u",
             reviewers := [{ login := "carol", status := "pending" }],
             createdAt := -1, repository := "a/b" }]).tooOld
          = (repoHiddenCounts 10368000000 (maxAgeMsOf 120) [] "a/b" []).tooOld + 1) :=
  ⟨(C5_age_filter_boundary 10368000000 120
      { title := "t", number := 1, author := "a", url := "u",
        reviewers := [{ login := "carol", status := "pending" }],
        createdAt := 0, repository := "a/b" } [] [] [] "a/b").1 (by decide),
   (C5_age_filter_boundary 10368000000 120
      { title := "t", number := 1, author := "a", url := "u",
        reviewers := [{ login := "carol", status := "pending" }],
        createdAt := -1, repository := "a/b" } [] [] [] "a/b").2 (by decide)⟩

/-- Claim C6: for an age-eligible PR, visibility holds exactly when some
reviewer is `pending`, `commented` or `changes_requested`; a PR whose every
reviewer (of at least one) approved is excluded from the visible list and
adds exactly one to its repository's `fullyReviewed` bucket. -/
theorem C6_visibility_and_fully_reviewed (now maxAgeMs : Int) (dc : List (String × Nat))
    (repository : String) (pr : GitHubPR) (l₁ l₂ : List GitHubPR)
    (hage : passesAge now maxAgeMs pr = true) (hne : pr.reviewers ≠ []) :
    (hasPendingReview pr = true ↔ ∃ r ∈ pr.reviewers,
        r.status = "pending" ∨ r.status = "commented" ∨ r.status = "changes_requested")
    ∧ visiblePRs now maxAgeMs (l₁ ++ pr :: l₂)
        = visiblePRs now maxAgeMs l₁
          ++ (if hasPendingReview pr then [pr] else [])
          ++ visiblePRs now maxAgeMs l₂
    ∧ ((∀ r ∈ pr.reviewers, r.status = "approved") →
        hasPendingReview pr = false
        ∧ (repoHiddenCounts now maxAgeMs dc repository (l₁ ++ pr :: l₂)).fullyReviewed
            = (repoHiddenCounts now maxAgeMs dc repository (l₁ ++ l₂)).fullyReviewed + 1) := by
  refine ⟨?_, ?_, ?_⟩
  · simp [hasPendingReview, List.any_eq_true, or_assoc]
  · by_cases hp : hasPendingReview pr <;>
      simp [visiblePRs, List.filter_append, List.filter_cons, hage, hp]
  · intro happ
    have hpend := hasPendingReview_eq_false_of_all_approved happ
    have hfull := isFullyApproved_eq_true_of_all_approved hne happ
    refine ⟨hpend, ?_⟩
    simp only [repoHiddenCounts, List.filter_append, List.filter_cons, hage, if_true,
      hfull, List.length_append, List.length_cons]
    omega

/-- Concrete instance of claim C6: a fully-approved, age-eligible PR is not
visible and adds one to `fullyReviewed`. -/
theorem C6_visibility_and_fully_reviewed_witness :
    hasPendingReview
      { title := "t", number := 1, author := "a", url := "u",
        reviewers := [{ login := "carol", status := "approved" }],
        createdAt := 0, repository := "a/b" } = false
    ∧ (repoHiddenCounts 0 (maxAgeMsOf 120) [] "a/b"
        [{ title := "t", number := 1, author := "a", url := "u",
           reviewers := [{ login := "carol", status := "approved" }],
           createdAt := 0, repository := "a/b" }]).fullyReviewed
        = (repoHiddenCounts 0 (maxAgeMsOf 120) [] "a/b" []).fullyReviewed + 1 :=
  (C6_visibility_and_fully_reviewed 0 (maxAgeMsOf 120) [] "a/b"
      { title := "t", number := 1, author := "a", url := "u",
        reviewers := [{ login := "carol", status := "approved" }],
        createdAt := 0, repository := "a/b" } [] []
      (by decide) (by decide)).2.2 (by decide)

theorem processReview_eq_of_not_qualifies {pa : Option String} {rv : Review}
    (h : qualifies pa rv = false) (m : List (String × String)) :
    processReview pa m rv = m := by
  rcases rv with ⟨ob, st⟩
  cases ob with
  | none => rfl
  | some b =>
    simp only [processReview]
    by_cases hb : b = ""
    · rw [if_pos hb]
    · rw [if_neg hb]
      have hskip : pa = some b ∨ strContains b "[bot]" = true := by
        by_contra hc
        push_neg at hc
        simp [qualifies, hb, hc.1, hc.2] at h
      rw [if_pos hskip]

theorem foldl_processReview_all_skip (pa : Option String) (reviews : List Review) :
    ∀ m, (∀ rv ∈ reviews, qualifies pa rv = false) →
      reviews.foldl (processReview pa) m = m := by
  induction reviews with
  | nil => intro m _; rfl
  | cons rv t ih =>
    intro m h
    simp only [List.foldl_cons]
    rw [processReview_eq_of_not_qualifies (h rv (List.mem_cons_self _ _)) m]
    exact ih m (fun x hx => h x (List.mem_cons_of_mem _ hx))

/-- Claim C4: every PR the fetcher keeps has a non-empty `reviewers`
sequence, and a raw PR with no requested reviewers and no qualifying review
events contributes nothing to the fetcher's output. -/
theorem C4_nonempty_reviewers (repo : String) :
    (∀ (raws : List RawPR) (pr : GitHubPR), pr ∈ processRepoPRs repo raws →
        pr.reviewers ≠ [])
    ∧ (∀ (raw : RawPR) (rest : List RawPR), requestedLogins raw.reviewRequests = [] →
        (∀ rv ∈ raw.reviews, qualifies raw.author rv = false) →
        processRepoPRs repo (raw :: rest) = processRepoPRs repo rest) := by
  constructor
  · intro raws
    induction raws with
    | nil => intro pr h; simp [processRepoPRs] at h
    | cons raw rest ih =>
      intro pr h
      simp only [processRepoPRs] at h
      by_cases hd : raw.isDraft
      · rw [if_pos hd] at h; exact ih pr h
      · rw [if_neg hd] at h
        by_cases hl : (resolveReviewers raw.author (requestedLogins raw.reviewRequests)
            raw.reviews).length > 0
        · rw [if_pos hl] at h
          rcases List.mem_cons.mp h with h1 | h2
          · subst h1
            have : resolveReviewers raw.author (requestedLogins raw.reviewRequests)
                raw.reviews ≠ [] := by
              intro hz
              rw [hz] at hl
              exact Nat.lt_irrefl 0 hl
            simpa using this
          · exact ih pr h2
        · rw [if_neg hl] at h; exact ih pr h
  · intro raw rest hreq hq
    have hres : resolveReviewers raw.author (requestedLogins raw.reviewRequests)
        raw.reviews = [] := by
      rw [resolveReviewers, hreq]
      exact foldl_processReview_all_skip raw.author raw.reviews
        (initReviewerStatuses []) hq
    by_cases hd : raw.isDraft
    · simp [processRepoPRs, hd]
    · simp [processRepoPRs, hd, hres]

/-- Concrete instance of claim C4: the PR produced from one raw node with a
requested reviewer has non-empty reviewers. -/
theorem C4_nonempty_reviewers_witness :
    ({ title := "Fix bug", number := 1, author := "dave", url := "http://x",
       reviewers := [{ login := "carol", status := "pending" }],
       createdAt := 0, repository := "a/b" } : GitHubPR).reviewers ≠ [] :=
  (C4_nonempty_reviewers "a/b").1
    [{ number := 1, title := "Fix bug", url := "http://x", createdAt := 0,
       isDraft := false, author := some "dave",
       reviewRequests := [some "carol"], reviews := [] }]
    { title := "Fix bug", number := 1, author := "dave", url := "http://x",
      reviewers := [{ login := "carol", status := "pending" }],
      createdAt := 0, repository := "a/b" }
    (by decide)

theorem fetchFromRepos_fail_skip (net : String → RepoResult) (f : String)
    (hf : net f = RepoResult.fail) (l₁ l₂ : List String) :
    fetchFromRepos net (l₁ ++ f :: l₂) = fetchFromRepos net (l₁ ++ l₂) := by
  induction l₁ with
  | nil =>
    simp only [List.nil_append]
    rcases hp : parseRepoSpec f with _ | ⟨o, n⟩ <;> simp [fetchFromRepos, hp, hf]
  | cons repo t ih =>
    simp only [List.cons_append]
    rw [fetchFromRepos, fetchFromRepos, ih]

theorem fetchFromRepos_append (net : String → RepoResult) (l₁ l₂ : List String) :
    (fetchFromRepos net (l₁ ++ l₂)).1
        = (fetchFromRepos net l₁).1 ++ (fetchFromRepos net l₂).1
    ∧ (fetchFromRepos net (l₁ ++ l₂)).2
        = (fetchFromRepos net l₁).2 ++ (fetchFromRepos net l₂).2 := by
  induction l₁ with
  | nil => simp [fetchFromRepos]
  | cons repo t ih =>
    simp only [List.cons_append]
    rw [fetchFromRepos, fetchFromRepos]
    rcases hp : parseRepoSpec repo with _ | p
    · exact ih
    · rcases hn : net repo with nodes | _
      · exact ⟨by simp [ih.1, List.append_assoc], by simp [ih.2]⟩
      · exact ih

theorem processRepoNodes_throw (repo : String) (n₁ n₂ : List RawNode) :
    processRepoNodes repo (n₁ ++ RawNode.poisoned false :: n₂)
      = processRepoNodes repo n₁ := by
  induction n₁ with
  | nil => rfl
  | cons x t ih =>
    rcases x with pr | d
    · simp only [List.cons_append, processRepoNodes, List.append_eq, ih]
    · cases d
      · rfl
      · simp only [List.cons_append, processRepoNodes, List.append_eq, ih]

theorem processRepoNodes_eq_reached (repo : String) (nodes : List RawNode) :
    processRepoNodes repo nodes = processRepoPRs repo (reachedRawPRs nodes) := by
  induction nodes with
  | nil => rfl
  | cons x t ih =>
    rcases x with pr | d
    · simp only [processRepoNodes, reachedRawPRs, processRepoPRs, ih]
    · cases d
      · rfl
      · simp only [processRepoNodes, reachedRawPRs, ih]

/-- Claim C9 as stated is false: a repository whose payload makes the PR
loop throw mid-way (caught by the per-repository handler only at line 165)
still contributes the PRs pushed before the throw and its draftCounts
entry, written at line 101 before the loop. -/
theorem C9_counterexample_partial_contribution :
    (fetchFromRepos
        (fun _ => RepoResult.ok
          [RawNode.node { number := 1, title := "Fix bug", url := "http://x",
                          createdAt := 0, isDraft := false, author := some "dave",
                          reviewRequests := [some "carol"], reviews := [] },
           RawNode.poisoned false])
        ["a/b"]).1 ≠ []
    ∧ (fetchFromRepos
        (fun _ => RepoResult.ok
          [RawNode.node { number := 1, title := "Fix bug", url := "http://x",
                          createdAt := 0, isDraft := false, author := some "dave",
                          reviewRequests := [some "carol"], reviews := [] },
           RawNode.poisoned false])
        ["a/b"]).2 ≠ [] := by
  decide

/-- Claim C9 amended: the batch result is the concatenation of independent
per-repository contributions, so a failing repository never prevents the
remaining repositories from being processed and they yield exactly what
they would yield with it omitted; a failure that precedes PR processing
(network error, non-success response, GraphQL errors, malformed top-level
payload) contributes zero PRs and no draftCounts entry; a payload whose PR
loop throws mid-way instead keeps its partial contribution — the
draft-count entry written before the loop and the PRs accumulated before
the throw — and drops everything after the throw. -/
theorem C9_per_repo_failure_amended (net : String → RepoResult) (f : String)
    (l₁ l₂ : List String) :
    (net f = RepoResult.fail →
      fetchFromRepos net (l₁ ++ f :: l₂) = fetchFromRepos net (l₁ ++ l₂))
    ∧ (fetchFromRepos net (l₁ ++ l₂)).1
        = (fetchFromRepos net l₁).1 ++ (fetchFromRepos net l₂).1
    ∧ (fetchFromRepos net (l₁ ++ l₂)).2
        = (fetchFromRepos net l₁).2 ++ (fetchFromRepos net l₂).2
    ∧ (∀ (nodes₁ nodes₂ : List RawNode),
        processRepoNodes f (nodes₁ ++ RawNode.poisoned false :: nodes₂)
          = processRepoNodes f nodes₁)
    ∧ (∀ (p : String × String) (nodes : List RawNode),
        parseRepoSpec f = some p → net f = RepoResult.ok nodes →
        fetchFromRepos net (f :: l₂)
          = (processRepoNodes f nodes ++ (fetchFromRepos net l₂).1,
             (f, countDrafts nodes) :: (fetchFromRepos net l₂).2)) := by
  refine ⟨fun hf => fetchFromRepos_fail_skip net f hf l₁ l₂,
    (fetchFromRepos_append net l₁ l₂).1, (fetchFromRepos_append net l₁ l₂).2,
    fun nodes₁ nodes₂ => processRepoNodes_throw f nodes₁ nodes₂, ?_⟩
  intro p nodes hp hn
  rw [fetchFromRepos, hp, hn]

/-- Concrete instance of the amended claim C9: a repository failing before
any effect drops out of the batch without affecting the others, and a
mid-loop throw keeps exactly the pre-throw contribution. -/
theorem C9_per_repo_failure_amended_witness :
    fetchFromRepos
      (fun r => if r = "bad/repo" then RepoResult.fail else RepoResult.ok [])
      ["a/b", "bad/repo", "c/d"]
      = fetchFromRepos
          (fun r => if r = "bad/repo" then RepoResult.fail else RepoResult.ok [])
          ["a/b", "c/d"]
    ∧ fetchFromRepos
        (fun _ => RepoResult.ok [RawNode.poisoned false])
        ["a/b"]
        = (processRepoNodes "a/b" [RawNode.poisoned false]
            ++ (fetchFromRepos (fun _ => RepoResult.ok [RawNode.poisoned false]) []).1,
           ("a/b", countDrafts [RawNode.poisoned false])
            :: (fetchFromRepos (fun _ => RepoResult.ok [RawNode.poisoned false]) []).2) :=
  ⟨(C9_per_repo_failure_amended
      (fun r => if r = "bad/repo" then RepoResult.fail else RepoResult.ok [])
      "bad/repo" ["a/b"] ["c/d"]).1 (by decide),
   (C9_per_repo_failure_amended
      (fun _ => RepoResult.ok [RawNode.poisoned false])
      "a/b" [] []).2.2.2.2 ("a", "b") [RawNode.poisoned false]
      (by decide) (by decide)⟩

theorem mem_mapSet {m : List (String × String)} {k v : String} {p : String × String}
    (h : p ∈ mapSet m k v) : p = (k, v) ∨ p ∈ m := by
  rw [mapSet] at h
  by_cases hh : mapHas m k
  · rw [if_pos hh] at h
    rcases List.mem_map.mp h with ⟨q, hq, hfq⟩
    by_cases hqk : (q.1 == k) = true
    · rw [if_pos hqk] at hfq
      exact Or.inl hfq.symm
    · rw [if_neg hqk] at hfq
      exact Or.inr (hfq ▸ hq)
  · rw [if_neg hh] at h
    rcases List.mem_append.mp h with h1 | h2
    · exact Or.inr h1
    · exact Or.inl (by simpa using h2)

theorem mem_processReview {pa : Option String} {m : List (String × String)} {rv : Review}
    {p : String × String} (h : p ∈ processReview pa m rv) :
    p.2 = "approved" ∨ p.2 = "changes_requested" ∨ p.2 = "commented" ∨ p ∈ m := by
  rcases rv with ⟨ob, st⟩
  cases ob with
  | none => exact Or.inr (Or.inr (Or.inr h))
  | some b =>
    simp only [processReview] at h
    by_cases hb : b = ""
    · rw [if_pos hb] at h; exact Or.inr (Or.inr (Or.inr h))
    · rw [if_neg hb] at h
      by_cases hskip : pa = some b ∨ strContains b "[bot]" = true
      · rw [if_pos hskip] at h; exact Or.inr (Or.inr (Or.inr h))
      · rw [if_neg hskip] at h
        by_cases h1 : st = "APPROVED"
        · rw [if_pos h1] at h
          rcases mem_mapSet h with he | hm
          · exact Or.inl (by rw [he])
          · exact Or.inr (Or.inr (Or.inr hm))
        · rw [if_neg h1] at h
          by_cases h2 : st = "CHANGES_REQUESTED"
          · rw [if_pos h2] at h
            rcases mem_mapSet h with he | hm
            · exact Or.inr (Or.inl (by rw [he]))
            · exact Or.inr (Or.inr (Or.inr hm))
          · rw [if_neg h2] at h
            by_cases h3 : st = "COMMENTED"
            · rw [if_pos h3] at h
              by_cases h4 : mapHas m b = false ∨ mapGet m b = some "pending"
              · rw [if_pos h4] at h
                rcases mem_mapSet h with he | hm
                · exact Or.inr (Or.inr (Or.inl (by rw [he])))
                · exact Or.inr (Or.inr (Or.inr hm))
              · rw [if_neg h4] at h; exact Or.inr (Or.inr (Or.inr h))
            · rw [if_neg h3] at h; exact Or.inr (Or.inr (Or.inr h))

theorem validStatus_initFold (requested : List String) :
    ∀ m, (∀ p ∈ m, validStatus p.2) →
      ∀ p ∈ requested.foldl (fun m r => mapSet m r "pending") m, validStatus p.2 := by
  induction requested with
  | nil => intro m hm; exact hm
  | cons q t ih =>
    intro m hm
    simp only [List.foldl_cons]
    refine ih _ ?_
    intro p hp
    rcases mem_mapSet hp with he | hm2
    · rw [he]; exact Or.inl rfl
    · exact hm p hm2

theorem validStatus_reviewFold (pa : Option String) (reviews : List Review) :
    ∀ m, (∀ p ∈ m, validStatus p.2) →
      ∀ p ∈ reviews.foldl (processReview pa) m, validStatus p.2 := by
  induction reviews with
  | nil => intro m hm; exact hm
  | cons rv t ih =>
    intro m hm
    simp only [List.foldl_cons]
    refine ih _ ?_
    intro p hp
    rcases mem_processReview hp with h1 | h2 | h3 | hm2
    · exact Or.inr (Or.inl h1)
    · exact Or.inr (Or.inr (Or.inl h2))
    · exact Or.inr (Or.inr (Or.inr h3))
    · exact hm p hm2

theorem validStatus_resolveReviewers (pa : Option String) (requested : List String)
    (reviews : List Review) :
    ∀ p ∈ resolveReviewers pa requested reviews, validStatus p.2 := by
  rw [resolveReviewers]
  exact validStatus_reviewFold pa reviews (initReviewerStatuses requested)
    (validStatus_initFold requested [] (by intro p hp; simp at hp))

/-- Claim C10: every reviewer status the fetcher produces is one of the four
enumeration values, so on fetcher-produced input the composer's default
glyph branch (`⏳`) fires only for `pending`. -/
theorem C10_status_enumeration (repo : String) (raws : List RawPR) :
    ∀ pr ∈ processRepoPRs repo raws, ∀ r ∈ pr.reviewers,
      (r.status = "pending" ∨ r.status = "approved"
        ∨ r.status = "changes_requested" ∨ r.status = "commented")
      ∧ (statusEmoji r.status = "⏳" → r.status = "pending") := by
  induction raws with
  | nil => intro pr h; simp [processRepoPRs] at h
  | cons raw rest ih =>
    intro pr h
    simp only [processRepoPRs] at h
    by_cases hd : raw.isDraft
    · rw [if_pos hd] at h; exact ih pr h
    · rw [if_neg hd] at h
      by_cases hl : (resolveReviewers raw.author (requestedLogins raw.reviewRequests)
          raw.reviews).length > 0
      · rw [if_pos hl] at h
        rcases List.mem_cons.mp h with h1 | h2
        · subst h1
          intro r hr
          rcases List.mem_map.mp hr with ⟨p, hp, hmap⟩
          have hv := validStatus_resolveReviewers raw.author
            (requestedLogins raw.reviewRequests) raw.reviews p hp
          have hst : r.status = p.2 := by rw [← hmap]
          rw [hst]
          refine ⟨hv, ?_⟩
          intro hemoji
          rcases hv with h5 | h5 | h5 | h5
          · exact h5
          · rw [h5] at hemoji; exact absurd hemoji (by decide)
          · rw [h5] at hemoji; exact absurd hemoji (by decide)
          · rw [h5] at hemoji; exact absurd hemoji (by decide)
        · exact ih pr h2
      · rw [if_neg hl] at h; exact ih pr h

/-- Concrete instance of claim C10: the status resolved for a requested
reviewer with no events is `pending`, one of the four values. -/
theorem C10_status_enumeration_witness :
    (("pending" : String) = "pending" ∨ ("pending" : String) = "approved"
      ∨ ("pending" : String) = "changes_requested" ∨ ("pending" : String) = "commented")
    ∧ (statusEmoji "pending" = "⏳" → ("pending" : String) = "pending") :=
  C10_status_enumeration "a/b"
    [{ number := 1, title := "Fix bug", url := "http://x", createdAt := 0,
       isDraft := false, author := some "dave",
       reviewRequests := [some "carol"], reviews := [] }]
    { title := "Fix bug", number := 1, author := "dave", url := "http://x",
      reviewers := [{ login := "carol", status := "pending" }],
      createdAt := 0, repository := "a/b" }
    (by decide)
    { login := "carol", status := "pending" }
    (by decide)

end StandupPR
